import Mathlib

/-!
Verification of the `TrieServeMux` HTTP request multiplexer
(`trie_serve_mux.go` of go-tigertonic).

The Go code is shallowly embedded as follows:

* Go `map[string]V` values become association lists `List (String × V)`
  with insert-or-overwrite (`ainsert`) and lookup (`alookup`).  Go map
  iteration order is unspecified; the only place the code iterates a map
  (`methodNotAllowedHandler.ServeHTTP`) immediately sorts the result, so
  modelling iteration as list order is faithful up to that sort.
* `url.Values` becomes `Values := List (String × List String)`;
  `Values.Set` replaces the key's value slice by a singleton.
* Handlers are abstract: the trie is parametric in a handler type `α`.
  The handlers the router itself fabricates (`methodNotAllowedHandler`,
  `NotFoundHandler()`) are distinguished constructors of `FindHandler`.
* `find` mutates `r.URL.Path` in the namespace branch; that mutation is
  returned explicitly in the `newPath` field of `FindResult`.
* `strings.Split` with the one-character separator `"/"` is modelled by
  `splitChar`; `sort.Strings` (byte-wise lexicographic) by insertion
  sort over `leStr`; `strings.Trim(s, "\x7b\x7d")` by `goTrimBraces`.
-/

/-- Lookup in an association list modelling a Go `map[string]V` read. -/
def alookup (k : String) : List (String × β) → Option β
  | [] => none
  | (k', v) :: rest => if k' = k then some v else alookup k rest

/-- Insert-or-overwrite in an association list, modelling a Go
`m[k] = v` map write. -/
def ainsert (k : String) (v : β) : List (String × β) → List (String × β)
  | [] => [(k, v)]
  | (k', v') :: rest => if k' = k then (k, v) :: rest else (k', v') :: ainsert k v rest

/-- The keys of an association list, modelling `for k := range m`. -/
def akeys (m : List (String × β)) : List String := m.map Prod.fst

/-- The character `{`. -/
def lbrace : Char := Char.ofNat 123

/-- The character `}`. -/
def rbrace : Char := Char.ofNat 125

/-- `strings.HasPrefix(s, "\x7b") && strings.HasSuffix(s, "\x7d")`:
the test on line 85 of `trie_serve_mux.go` deciding whether a pattern
segment is a wildcard. -/
def isWildcardSeg (s : String) : Bool :=
  [lbrace].isPrefixOf s.data && [rbrace].isSuffixOf s.data

/-- Membership in the cutset of `strings.Trim(s, "\x7b\x7d")`. -/
def inBraceCutset (c : Char) : Bool := c = lbrace || c = rbrace

/-- `strings.Trim(s, "\x7b\x7d")`: drop leading and trailing braces. -/
def goTrimBraces (s : String) : String :=
  String.mk (((s.data.dropWhile inBraceCutset).reverse.dropWhile inBraceCutset).reverse)

/-- Split a character list at every occurrence of `sep`
(`strings.Split` for a one-character separator). -/
def splitChar (sep : Char) : List Char → List (List Char)
  | [] => [[]]
  | c :: rest =>
    if c = sep then [] :: splitChar sep rest
    else
      match splitChar sep rest with
      | [] => [[c]]
      | g :: gs => (c :: g) :: gs

/-- `strings.Split(s, sep)` for a one-character separator. -/
def goSplit (s : String) (sep : Char) : List String :=
  (splitChar sep s.data).map String.mk

/-- `strings.Split(s, "/")[1:]` — the segment list both `Handle` and
`Handler` derive from a pattern / URL path. -/
def splitSegments (s : String) : List String := (goSplit s '/').drop 1

/-- `strings.Join(l, "/")`. -/
def joinSlash (l : List String) : String := String.intercalate "/" l

/-- `url.Values`: a map from keys to value slices. -/
abbrev Values : Type := List (String × List String)

/-- `url.Values.Set(k, v)`: replace the entry for `k` by the singleton
slice `[v]`. -/
def Values.set (k v : String) (vs : Values) : Values := ainsert k [v] vs

/-- The `TrieServeMux` struct: method map, optional wildcard token
(`param`), children (`paths`, also holding the wildcard child keyed by
the raw token), and the registered pattern string. -/
structure TrieServeMux (α : Type) where
  methods : List (String × α)
  param : Option String
  paths : List (String × TrieServeMux α)
  pattern : String

/-- `NewTrieServeMux()`: empty maps, nil `param`, zero-value pattern. -/
def NewTrieServeMux : TrieServeMux α := ⟨[], none, [], ""⟩

/-- `add` (lines 79–92): recursively insert a pattern's segments,
marking wildcard segments in `param`, and register the handler for
`method` (the empty method denotes a namespace) at the terminal node. -/
def TrieServeMux.add (t : TrieServeMux α) (method : String) (paths0 : List String)
    (handler : α) (pattern : String) : TrieServeMux α :=
  match paths0 with
  | [] => { t with methods := ainsert method handler t.methods, pattern := pattern }
  | p :: rest =>
    let t' := if isWildcardSeg p then { t with param := some p } else t
    { t' with
      paths := ainsert p
        (TrieServeMux.add ((alookup p t'.paths).getD NewTrieServeMux) method rest handler pattern)
        t'.paths }

/-- The handler component of a `find` result.  Registered handlers are
`handler h`; `methodNotAllowed` carries the node the responder is bound
to (`methodNotAllowedHandler\x7bmux\x7d`); `notFound` is the external
`NotFoundHandler()` collaborator; `nilPanic` marks the (unreachable for
`add`-built tries) Go nil-pointer dereference that occurs when `param`
names a child absent from `paths`. -/
inductive FindHandler (α : Type) where
  | handler (h : α)
  | methodNotAllowed (node : TrieServeMux α)
  | notFound
  | nilPanic

/-- The result of `find`: extracted parameters (`nil` ↦ `none`), the
handler, the matched pattern, and — modelling the mutation of
`r.URL.Path` in the namespace branch — the rewritten path, if any. -/
structure FindResult (α : Type) where
  params : Option Values
  handler : FindHandler α
  pattern : String
  newPath : Option String

/-- `find` (lines 97–121): literal child first, then the wildcard child
(recording the matched segment under the raw token and the trimmed
token), then the namespace fallback (rewriting the path to the
unconsumed suffix), else not-found. -/
def TrieServeMux.find (t : TrieServeMux α) (method : String) : List String → FindResult α
  | [] =>
    match alookup method t.methods with
    | some h => ⟨none, .handler h, t.pattern, none⟩
    | none => ⟨none, .methodNotAllowed t, "", none⟩
  | p :: rest =>
    match alookup p t.paths with
    | some child => child.find method rest
    | none =>
      match t.param with
      | some w =>
        match alookup w t.paths with
        | some child =>
          let r := child.find method rest
          let ps := Values.set (goTrimBraces w) p (Values.set w p (r.params.getD []))
          ⟨some ps, r.handler, r.pattern, r.newPath⟩
        | none => ⟨none, .nilPanic, "", none⟩
      | none =>
        match alookup "" t.methods with
        | some h => ⟨none, .handler h, t.pattern, some ("/" ++ joinSlash (p :: rest))⟩
        | none => ⟨none, .notFound, "", none⟩

/-- The node the `find` walk ends on, following `find`'s descent
discipline (literal child first, else wildcard child), ignoring
methods.  `some n` exactly when `find` reaches `n` with no segments
left. -/
def TrieServeMux.descend (t : TrieServeMux α) : List String → Option (TrieServeMux α)
  | [] => some t
  | p :: rest =>
    match alookup p t.paths with
    | some child => child.descend rest
    | none =>
      match t.param with
      | some w =>
        match alookup w t.paths with
        | some child => child.descend rest
        | none => none
      | none => none

/-- Byte-wise lexicographic comparison of character lists (Go string
`<=` on ASCII data). -/
def leChars : List Char → List Char → Bool
  | [], _ => true
  | _ :: _, [] => false
  | a :: as, b :: bs =>
    if a.toNat < b.toNat then true
    else if b.toNat < a.toNat then false
    else leChars as bs

/-- Lexicographic string comparison, the order of `sort.Strings`. -/
def leStr (a b : String) : Bool := leChars a.data b.data

/-- `sort.Strings`: sort lexicographically.  Any correct sort yields
the same list, so insertion sort models Go's sort faithfully. -/
def sortStrings (l : List String) : List String :=
  List.insertionSort (fun a b => leStr a b = true) l

/-- The `methods` list of `methodNotAllowedHandler.ServeHTTP` (lines
128–135): start from `OPTIONS`, append `HEAD` when `GET` is
registered, append every registered method, then sort. -/
def mnaMethods (t : TrieServeMux α) : List String :=
  sortStrings ("OPTIONS" ::
    (if (alookup "GET" t.methods).isSome then ["HEAD"] else []) ++ akeys t.methods)

/-- The body written by `methodNotAllowedHandler.ServeHTTP`, with the
JSON encoding (an external collaborator) represented structurally. -/
inductive MNABody where
  | allowJSON (methods : List String)
  | allowText (s : String)
  | errJSON (error description : String)
  | errText (description : String)

/-- The response of `methodNotAllowedHandler.ServeHTTP`: status code,
`Allow` header, `Content-Type` header, body. -/
structure MNAResponse where
  status : Nat
  allow : String
  contentType : String
  body : MNABody

/-- `methodNotAllowedHandler.ServeHTTP` (lines 127–199).  The CORS
branch only adds extra response headers by querying the external
CORS-capable handler; it affects neither the status, the `Allow`
header, nor the body, and is not modelled.  `acceptJSON` is the
external content-negotiation predicate, `snakeCase` the process-wide
`SnakeCaseHTTPEquivErrors` flag. -/
def mnaServe (t : TrieServeMux α) (reqMethod : String) (acceptJSON snakeCase : Bool) :
    MNAResponse :=
  let methods := mnaMethods t
  let allow := String.intercalate ", " methods
  if reqMethod = "OPTIONS" then
    if acceptJSON then ⟨200, allow, "application/json", .allowJSON methods⟩
    else ⟨200, allow, "text/plain", .allowText allow⟩
  else
    let description := "only " ++ allow ++ " are allowed"
    if acceptJSON then
      ⟨405, allow, "application/json",
        .errJSON (if snakeCase then "method_not_allowed" else "tigertonic.MethodNotAllowed")
          description⟩
    else ⟨405, allow, "text/plain", .errText description⟩

/-- Upper-case hexadecimal digit. -/
def hexUpperDigit (n : Nat) : Char :=
  if n < 10 then Char.ofNat (48 + n) else Char.ofNat (55 + n)

/-- `url.QueryEscape` on one character: space becomes `+`,
alphanumerics and `-_.~` pass through, anything else is
percent-encoded.  (Byte-wise in Go; identical on ASCII, which is all
the claims exercise — the escaper is stdlib, an external
collaborator.) -/
def queryEscapeChar (c : Char) : String :=
  if c = ' ' then "+"
  else if c.isAlphanum || c = '-' || c = '_' || c = '.' || c = '~' then String.mk [c]
  else String.mk ['%', hexUpperDigit (c.toNat / 16), hexUpperDigit (c.toNat % 16)]

/-- `url.QueryEscape`. -/
def queryEscape (s : String) : String := String.join (s.data.map queryEscapeChar)

/-- `url.Values.Encode()`: keys sorted, each value emitted as
`k=v` (escaped), joined by `&`. -/
def encodeValues (vs : Values) : String :=
  String.intercalate "&"
    (List.flatten ((sortStrings (akeys vs)).map
      (fun k => ((alookup k vs).getD []).map
        (fun v => queryEscape k ++ "=" ++ queryEscape v))))

/-- One chunk of `url.ParseQuery`: an empty chunk is skipped, otherwise
the chunk is cut at the first `=` into key and value. -/
def queryChunkPair (chunk : List Char) : Option (String × String) :=
  match chunk with
  | [] => none
  | _ :: _ =>
    some (String.mk (chunk.takeWhile (fun c => c != '=')),
      String.mk ((chunk.dropWhile (fun c => c != '=')).drop 1))

/-- `url.ParseQuery`, as the ordered list of key/value pairs it
accumulates (unescaping, stdlib, is not modelled — the claims compare
raw chunks on both sides). -/
def parseQuery (s : String) : List (String × String) :=
  (splitChar '&' s.data).filterMap queryChunkPair

/-- The result of the `Handler` entry point: handler, pattern, the
mutated `r.URL.RawQuery`, and the mutated `r.URL.Path` (if any). -/
structure HandlerResult (α : Type) where
  handler : FindHandler α
  pattern : String
  rawQuery : String
  newPath : Option String

/-- `Handler` (lines 62–66): call `find` on the split path, then append
`"&" + params.Encode()` to the raw query. -/
def TrieServeMux.Handler (t : TrieServeMux α) (method urlPath rawQuery : String) :
    HandlerResult α :=
  let r := t.find method (splitSegments urlPath)
  ⟨r.handler, r.pattern, rawQuery ++ "&" ++ encodeValues (r.params.getD []), r.newPath⟩

/-- Fold a list of `(method, pattern, handler)` registrations through
`Handle` (line 39: `add` on `strings.Split(pattern, "/")[1:]`). -/
def buildTrie (regs : List (String × String × α)) : TrieServeMux α :=
  regs.foldl (fun t r => t.add r.1 (splitSegments r.2.1) r.2.2 r.2.1) NewTrieServeMux

/-- The last registration in `regs` whose method is `m` and whose
pattern splits into `segs` — the one whose handler the trie stores. -/
def lastRegFor (regs : List (String × String × α)) (m : String) (segs : List String) :
    Option (String × String × α) :=
  (regs.filter (fun r => decide (r.1 = m ∧ splitSegments r.2.1 = segs))).getLast?

/-- The literal chain of children for `segs` exists in `t` (every
registration leaves such a chain for its own segments). -/
def hasChain (t : TrieServeMux α) : List String → Prop
  | [] => True
  | p :: rest => ∃ c, alookup p t.paths = some c ∧ hasChain c rest

/-- The pattern begins with `/` (the spec's well-formedness condition
on patterns). -/
def startsSlash (s : String) : Bool := s.data.head? = some '/'

/-- Join character-list groups with a separator: the inverse of
`splitChar`, used to show splitting is lossless. -/
def joinChar (sep : Char) : List (List Char) → List Char
  | [] => []
  | [g] => g
  | g :: gs => g ++ sep :: joinChar sep gs

/-! ### Association-list lemmas -/

theorem alookup_ainsert_self (k : String) (v : β) (l : List (String × β)) :
    alookup k (ainsert k v l) = some v := by
  induction l with
  | nil => simp [ainsert, alookup]
  | cons kv rest ih =>
    obtain ⟨k', v'⟩ := kv
    by_cases h : k' = k
    · simp [ainsert, alookup, h]
    · simp [ainsert, alookup, h, ih]

theorem alookup_ainsert_of_ne (k k' : String) (v : β) (l : List (String × β))
    (h : k' ≠ k) : alookup k (ainsert k' v l) = alookup k l := by
  induction l with
  | nil => simp [ainsert, alookup, h]
  | cons kv rest ih =>
    obtain ⟨k'', v''⟩ := kv
    by_cases h2 : k'' = k'
    · subst h2
      simp [ainsert, alookup, h, Ne.symm h]
    · by_cases h3 : k'' = k <;> simp [ainsert, alookup, h2, h3, ih, Ne.symm h]

theorem ainsert_ainsert_self (k : String) (v : β) (l : List (String × β)) :
    ainsert k v (ainsert k v l) = ainsert k v l := by
  induction l with
  | nil => simp [ainsert]
  | cons kv rest ih =>
    obtain ⟨k', v'⟩ := kv
    by_cases h : k' = k
    · simp [ainsert, h]
    · simp [ainsert, h, ih]

/-! ### Unfolding lemmas for `add` -/

theorem add_nil (t : TrieServeMux α) (m : String) (h : α) (pat : String) :
    t.add m [] h pat = { t with methods := ainsert m h t.methods, pattern := pat } := rfl

theorem add_cons_methods (t : TrieServeMux α) (m p : String) (rest : List String)
    (h : α) (pat : String) : (t.add m (p :: rest) h pat).methods = t.methods := by
  by_cases hw : isWildcardSeg p <;> simp [TrieServeMux.add, hw]

theorem add_cons_pattern (t : TrieServeMux α) (m p : String) (rest : List String)
    (h : α) (pat : String) : (t.add m (p :: rest) h pat).pattern = t.pattern := by
  by_cases hw : isWildcardSeg p <;> simp [TrieServeMux.add, hw]

theorem add_cons_param (t : TrieServeMux α) (m p : String) (rest : List String)
    (h : α) (pat : String) :
    (t.add m (p :: rest) h pat).param = if isWildcardSeg p then some p else t.param := by
  by_cases hw : isWildcardSeg p <;> simp [TrieServeMux.add, hw]

theorem add_cons_paths (t : TrieServeMux α) (m p : String) (rest : List String)
    (h : α) (pat : String) :
    (t.add m (p :: rest) h pat).paths
      = ainsert p (TrieServeMux.add ((alookup p t.paths).getD NewTrieServeMux) m rest h pat)
          t.paths := by
  by_cases hw : isWildcardSeg p <;> simp [TrieServeMux.add, hw]

/-! ### `find` after `add` -/

/-- Probing the trie with exactly the segments just registered finds
the just-registered handler and pattern. -/
theorem find_add_same (t : TrieServeMux α) (m : String) (segs : List String)
    (h : α) (pat : String) :
    (t.add m segs h pat).find m segs = ⟨none, .handler h, pat, none⟩ := by
  induction segs generalizing t with
  | nil => simp [TrieServeMux.add, TrieServeMux.find, alookup_ainsert_self]
  | cons p rest ih =>
    rw [TrieServeMux.find, add_cons_paths, alookup_ainsert_self]
    exact ih _

theorem hasChain_add_self (t : TrieServeMux α) (m : String) (segs : List String)
    (h : α) (pat : String) : hasChain (t.add m segs h pat) segs := by
  induction segs generalizing t with
  | nil => trivial
  | cons p rest ih =>
    exact ⟨_, by rw [add_cons_paths]; exact alookup_ainsert_self _ _ _, ih _⟩

/-- `add` never removes a literal chain. -/
theorem hasChain_add (t : TrieServeMux α) (segs : List String)
    (m' : String) (segs' : List String) (h' : α) (pat' : String)
    (hc : hasChain t segs) : hasChain (t.add m' segs' h' pat') segs := by
  induction segs generalizing t segs' with
  | nil => trivial
  | cons p rest ih =>
    obtain ⟨c, hlook, hrest⟩ := hc
    cases segs' with
    | nil => exact ⟨c, hlook, hrest⟩
    | cons q qs =>
      by_cases hpq : q = p
      · subst hpq
        refine ⟨_, ?_, ih _ qs hrest⟩
        rw [add_cons_paths, hlook]
        exact alookup_ainsert_self _ _ _
      · refine ⟨c, ?_, hrest⟩
        rw [add_cons_paths, alookup_ainsert_of_ne _ _ _ _ hpq]
        exact hlook

/-- Destructor for a successful leaf lookup. -/
theorem find_nil_handler (t : TrieServeMux α) {m : String} {h : α} {pat : String}
    (hf : t.find m [] = ⟨none, .handler h, pat, none⟩) :
    alookup m t.methods = some h ∧ t.pattern = pat := by
  rw [TrieServeMux.find] at hf
  cases hm : alookup m t.methods with
  | none => rw [hm] at hf; simp at hf
  | some a =>
    rw [hm] at hf
    simp only [FindResult.mk.injEq, FindHandler.handler.injEq] at hf
    exact ⟨by rw [hf.2.1], hf.2.2.1⟩

/-- Adding a registration for a different (method, segments) key — or
re-stating the same pattern string — does not disturb an existing
literal resolution. -/
theorem find_add_other (t : TrieServeMux α) (m : String) (segs : List String)
    (h : α) (pat : String) (m' : String) (segs' : List String) (h' : α) (pat' : String)
    (hc : hasChain t segs)
    (hf : t.find m segs = ⟨none, .handler h, pat, none⟩)
    (hne : segs' = segs → m' ≠ m ∧ pat' = pat) :
    (t.add m' segs' h' pat').find m segs = ⟨none, .handler h, pat, none⟩ := by
  induction segs generalizing t segs' with
  | nil =>
    obtain ⟨hm, hpat⟩ := find_nil_handler t hf
    cases segs' with
    | nil =>
      obtain ⟨hm', hp'⟩ := hne rfl
      rw [TrieServeMux.find, add_nil]
      rw [alookup_ainsert_of_ne _ _ _ _ hm', hm]
      simp [hp']
    | cons q qs =>
      rw [TrieServeMux.find, add_cons_methods, hm, add_cons_pattern, hpat]
  | cons p ps ih =>
    obtain ⟨c, hlook, hchain⟩ := hc
    rw [TrieServeMux.find, hlook] at hf
    cases segs' with
    | nil =>
      rw [TrieServeMux.find, add_nil]
      rw [show ({ t with methods := ainsert m' h' t.methods, pattern := pat' } :
            TrieServeMux α).paths = t.paths from rfl, hlook]
      exact hf
    | cons q qs =>
      by_cases hqp : q = p
      · subst hqp
        rw [TrieServeMux.find, add_cons_paths, hlook]
        rw [show ((some c).getD NewTrieServeMux) = c from rfl, alookup_ainsert_self]
        exact ih c qs hchain hf (fun he => hne (by rw [he]))
      · rw [TrieServeMux.find, add_cons_paths, alookup_ainsert_of_ne _ _ _ _ hqp, hlook]
        exact hf

/-- **C2.** When a literal child exists for the head segment, `find`
descends into it — even when a wildcard (`param`) is registered at the
same node — so a path segment equal to a registered literal resolves
via the literal child, never the wildcard child. -/
theorem find_literal_beats_wildcard (t : TrieServeMux α) (m p : String)
    (rest : List String) (c : TrieServeMux α) (w : String)
    (hlit : alookup p t.paths = some c) (_hwild : t.param = some w) :
    t.find m (p :: rest) = c.find m rest := by
  rw [TrieServeMux.find, hlit]

/-- Witness for C2: with `/users/me` and `/users/\x7bid\x7d` both
registered, requesting `/users/me` resolves to the literal handler. -/
theorem find_literal_beats_wildcard_witness :
    (alookup "me"
        ((alookup "users" ((NewTrieServeMux.add "GET" ["users", "me"] (1 : Nat)
            "/users/me").add "GET" ["users", "\x7bid\x7d"] 2
            "/users/\x7bid\x7d").paths).getD NewTrieServeMux).paths
        = some ((alookup "me" ((alookup "users" ((NewTrieServeMux.add "GET"
            ["users", "me"] (1 : Nat) "/users/me").add "GET"
            ["users", "\x7bid\x7d"] 2 "/users/\x7bid\x7d").paths).getD
            NewTrieServeMux).paths).getD NewTrieServeMux)
      ∧ ((alookup "users" ((NewTrieServeMux.add "GET" ["users", "me"] (1 : Nat)
            "/users/me").add "GET" ["users", "\x7bid\x7d"] 2
            "/users/\x7bid\x7d").paths).getD NewTrieServeMux).param
          = some "\x7bid\x7d")
    ∧ ((alookup "users" ((NewTrieServeMux.add "GET" ["users", "me"] (1 : Nat)
          "/users/me").add "GET" ["users", "\x7bid\x7d"] 2
          "/users/\x7bid\x7d").paths).getD NewTrieServeMux).find "GET" ["me"]
        = ((alookup "me" ((alookup "users" ((NewTrieServeMux.add "GET"
            ["users", "me"] (1 : Nat) "/users/me").add "GET"
            ["users", "\x7bid\x7d"] 2 "/users/\x7bid\x7d").paths).getD
            NewTrieServeMux).paths).getD NewTrieServeMux).find "GET" []
    ∧ ((alookup "me" ((alookup "users" ((NewTrieServeMux.add "GET"
          ["users", "me"] (1 : Nat) "/users/me").add "GET"
          ["users", "\x7bid\x7d"] 2 "/users/\x7bid\x7d").paths).getD
          NewTrieServeMux).paths).getD NewTrieServeMux).find "GET" []
        = ⟨none, .handler 1, "/users/me", none⟩ :=
  ⟨⟨rfl, rfl⟩, find_literal_beats_wildcard _ _ _ _ _ _ rfl rfl, rfl⟩

/-- **C6.** A request whose head segment matches no literal child at a
node with no wildcard and no namespace handler yields the external
not-found outcome: `NotFoundHandler()`, no parameters, empty pattern
(and no path rewrite). -/
theorem find_unregistered_notFound (t : TrieServeMux α) (m p : String)
    (rest : List String)
    (h1 : alookup p t.paths = none) (h2 : t.param = none)
    (h3 : alookup "" t.methods = none) :
    t.find m (p :: rest) = ⟨none, .notFound, "", none⟩ := by
  rw [TrieServeMux.find, h1, h2, h3]

/-- Witness for C6: with only `GET /users` registered, requesting
`/nosuch` returns the not-found outcome. -/
theorem find_unregistered_notFound_witness :
    (alookup "nosuch" (NewTrieServeMux.add "GET" ["users"] (1 : Nat) "/users").paths = none
      ∧ (NewTrieServeMux.add "GET" ["users"] (1 : Nat) "/users").param = none
      ∧ alookup "" (NewTrieServeMux.add "GET" ["users"] (1 : Nat) "/users").methods = none)
    ∧ (NewTrieServeMux.add "GET" ["users"] (1 : Nat) "/users").find "GET" ["nosuch"]
        = ⟨none, .notFound, "", none⟩ :=
  ⟨⟨rfl, rfl, rfl⟩, find_unregistered_notFound _ _ _ _ rfl rfl rfl⟩

/-- **C5.** A namespace registered (empty method) at prefix `segsP`
catches any strictly longer path with no deeper match: `find` returns
the namespace handler and pattern and rewrites the request path to
`"/"` followed by the unconsumed segments joined by `"/"`. -/
theorem find_namespace_rewrites (segsP : List String) (h : α) (P m q : String)
    (rest : List String) :
    (NewTrieServeMux.add "" segsP h P).find m (segsP ++ q :: rest)
      = ⟨none, .handler h, P, some ("/" ++ joinSlash (q :: rest))⟩ := by
  induction segsP with
  | nil => rfl
  | cons p ps ih =>
    rw [List.cons_append, TrieServeMux.find, add_cons_paths, alookup_ainsert_self]
    exact ih

/-- **C3.** For a registered pattern with a wildcard token at some
position, a request equal to the pattern except for the value at that
position resolves to the registered handler and pattern, with the
matched value recorded under both the raw token and the trimmed token. -/
theorem find_wildcard_extracts (pre : List String) (tok : String) (post : List String)
    (m : String) (h : α) (pat : String) (v : String)
    (hw : isWildcardSeg tok = true) (hv : v ≠ tok) :
    ∃ ps : Values,
      (NewTrieServeMux.add m (pre ++ tok :: post) h pat).find m (pre ++ v :: post)
        = ⟨some ps, .handler h, pat, none⟩
      ∧ alookup tok ps = some [v]
      ∧ alookup (goTrimBraces tok) ps = some [v] := by
  induction pre with
  | nil =>
    refine ⟨Values.set (goTrimBraces tok) v (Values.set tok v []), ?_, ?_, ?_⟩
    · rw [List.nil_append, List.nil_append, TrieServeMux.find]
      have h1 : alookup v (NewTrieServeMux.add m (tok :: post) h pat).paths = none := by
        rw [add_cons_paths, alookup_ainsert_of_ne _ _ _ _ (Ne.symm hv)]
        rfl
      have h2 : (NewTrieServeMux.add m (tok :: post) h pat).param = some tok := by
        rw [add_cons_param]
        simp [hw]
      have h3 : alookup tok (NewTrieServeMux.add m (tok :: post) h pat).paths
          = some (TrieServeMux.add NewTrieServeMux m post h pat) := by
        rw [add_cons_paths]
        exact alookup_ainsert_self _ _ _
      simp only [h1, h2, h3, find_add_same]
      rfl
    · by_cases htr : goTrimBraces tok = tok
      · rw [Values.set, Values.set, htr, ainsert_ainsert_self]
        exact alookup_ainsert_self _ _ _
      · rw [Values.set, Values.set, alookup_ainsert_of_ne _ _ _ _ htr]
        exact alookup_ainsert_self _ _ _
    · exact alookup_ainsert_self _ _ _
  | cons p ps ih =>
    obtain ⟨psv, hfind, ha, hb⟩ := ih
    refine ⟨psv, ?_, ha, hb⟩
    rw [List.cons_append, List.cons_append, TrieServeMux.find, add_cons_paths,
      alookup_ainsert_self]
    exact hfind

/-- Field-wise extensionality for trie nodes. -/
theorem trie_ext (t1 t2 : TrieServeMux α) (h1 : t1.methods = t2.methods)
    (h2 : t1.param = t2.param) (h3 : t1.paths = t2.paths)
    (h4 : t1.pattern = t2.pattern) : t1 = t2 := by
  cases t1
  cases t2
  simp_all

/-- Re-registering the same (method, segments, handler, pattern)
leaves the trie unchanged. -/
theorem trieAdd_idem (t : TrieServeMux α) (m : String) (segs : List String)
    (h : α) (pat : String) :
    (t.add m segs h pat).add m segs h pat = t.add m segs h pat := by
  induction segs generalizing t with
  | nil => simp [add_nil, ainsert_ainsert_self]
  | cons p rest ih =>
    apply trie_ext
    · rw [add_cons_methods, add_cons_methods]
    · by_cases hw : isWildcardSeg p <;> simp [add_cons_param, hw]
    · rw [add_cons_paths, add_cons_paths, alookup_ainsert_self, Option.getD_some, ih,
        ainsert_ainsert_self]
    · rw [add_cons_pattern, add_cons_pattern]

/-- **C9.** Registration is idempotent: registering the same
(method, pattern, handler) twice yields a trie equal to one
registration, so every request dispatches identically. -/
theorem add_twice_same_dispatch (t : TrieServeMux α) (m : String) (segs : List String)
    (h : α) (pat : String) :
    (t.add m segs h pat).add m segs h pat = t.add m segs h pat
    ∧ ∀ (rm : String) (rsegs : List String),
        ((t.add m segs h pat).add m segs h pat).find rm rsegs
          = (t.add m segs h pat).find rm rsegs :=
  ⟨trieAdd_idem t m segs h pat, fun rm rsegs => by rw [trieAdd_idem]⟩

/-- Witness for C3: `GET /users/\x7bid\x7d` requested as `/users/42`
yields parameters `\x7bid\x7d -> 42` and `id -> 42`. -/
theorem find_wildcard_extracts_witness :
    (isWildcardSeg "\x7bid\x7d" = true ∧ "42" ≠ "\x7bid\x7d")
    ∧ ∃ ps : Values,
        (NewTrieServeMux.add "GET" (["users"] ++ "\x7bid\x7d" :: []) (7 : Nat)
            "/users/\x7bid\x7d").find "GET" (["users"] ++ "42" :: [])
          = ⟨some ps, .handler 7, "/users/\x7bid\x7d", none⟩
        ∧ alookup "\x7bid\x7d" ps = some ["42"]
        ∧ alookup (goTrimBraces "\x7bid\x7d") ps = some ["42"] :=
  ⟨⟨by decide, by decide⟩,
    find_wildcard_extracts ["users"] "\x7bid\x7d" [] "GET" 7 "/users/\x7bid\x7d" "42"
      (by decide) (by decide)⟩

/-- **C8.** A node holds at most one wildcard token.  Registering a
second, different wildcard token at the same depth under the same
parent overwrites `param` (last write wins), so wildcard lookups at
that node descend only into the subtree under the later token. -/
theorem wildcard_last_write (m1 m2 m : String) (post1 post2 rest : List String)
    (h1 h2 : α) (p1 p2 : String) (tok1 tok2 v : String)
    (_hw1 : isWildcardSeg tok1 = true) (hw2 : isWildcardSeg tok2 = true)
    (hne : tok1 ≠ tok2) (hv1 : v ≠ tok1) (hv2 : v ≠ tok2) :
    ((NewTrieServeMux.add m1 (tok1 :: post1) h1 p1).add m2 (tok2 :: post2) h2 p2).param
        = some tok2
    ∧ (((NewTrieServeMux.add m1 (tok1 :: post1) h1 p1).add m2 (tok2 :: post2) h2 p2).find
          m (v :: rest)).handler
        = ((NewTrieServeMux.add m2 post2 h2 p2).find m rest).handler
    ∧ (((NewTrieServeMux.add m1 (tok1 :: post1) h1 p1).add m2 (tok2 :: post2) h2 p2).find
          m (v :: rest)).pattern
        = ((NewTrieServeMux.add m2 post2 h2 p2).find m rest).pattern := by
  have hl : alookup v ((NewTrieServeMux.add m1 (tok1 :: post1) h1 p1).add m2
      (tok2 :: post2) h2 p2).paths = none := by
    rw [add_cons_paths, alookup_ainsert_of_ne _ _ _ _ (Ne.symm hv2),
      add_cons_paths, alookup_ainsert_of_ne _ _ _ _ (Ne.symm hv1)]
    rfl
  have hpar : ((NewTrieServeMux.add m1 (tok1 :: post1) h1 p1).add m2
      (tok2 :: post2) h2 p2).param = some tok2 := by
    rw [add_cons_param]
    simp [hw2]
  have h0 : alookup tok2 (NewTrieServeMux.add m1 (tok1 :: post1) h1 p1).paths = none := by
    rw [add_cons_paths, alookup_ainsert_of_ne _ _ _ _ hne]
    rfl
  have hB : alookup tok2 ((NewTrieServeMux.add m1 (tok1 :: post1) h1 p1).add m2
      (tok2 :: post2) h2 p2).paths = some (NewTrieServeMux.add m2 post2 h2 p2) := by
    rw [add_cons_paths, h0]
    exact alookup_ainsert_self _ _ _
  have key : ((NewTrieServeMux.add m1 (tok1 :: post1) h1 p1).add m2
      (tok2 :: post2) h2 p2).find m (v :: rest)
      = ⟨some (Values.set (goTrimBraces tok2) v (Values.set tok2 v
            (((NewTrieServeMux.add m2 post2 h2 p2).find m rest).params.getD []))),
          ((NewTrieServeMux.add m2 post2 h2 p2).find m rest).handler,
          ((NewTrieServeMux.add m2 post2 h2 p2).find m rest).pattern,
          ((NewTrieServeMux.add m2 post2 h2 p2).find m rest).newPath⟩ := by
    rw [TrieServeMux.find]
    simp only [hl, hpar, hB]
  exact ⟨hpar, by rw [key], by rw [key]⟩

/-- Witness for C8: after registering `/\x7ba\x7d` then `/\x7bb\x7d`,
the node's wildcard token is `\x7bb\x7d` and a wildcard lookup descends
into the later subtree. -/
theorem wildcard_last_write_witness :
    (isWildcardSeg "\x7ba\x7d" = true ∧ isWildcardSeg "\x7bb\x7d" = true
      ∧ "\x7ba\x7d" ≠ "\x7bb\x7d" ∧ "42" ≠ "\x7ba\x7d" ∧ "42" ≠ "\x7bb\x7d")
    ∧ ((NewTrieServeMux.add "GET" ("\x7ba\x7d" :: []) (1 : Nat) "/\x7ba\x7d").add "GET"
          ("\x7bb\x7d" :: []) 2 "/\x7bb\x7d").param = some "\x7bb\x7d"
    ∧ (((NewTrieServeMux.add "GET" ("\x7ba\x7d" :: []) (1 : Nat) "/\x7ba\x7d").add "GET"
          ("\x7bb\x7d" :: []) 2 "/\x7bb\x7d").find "GET" ("42" :: [])).handler
        = ((NewTrieServeMux.add "GET" [] 2 "/\x7bb\x7d").find "GET" []).handler
    ∧ (((NewTrieServeMux.add "GET" ("\x7ba\x7d" :: []) (1 : Nat) "/\x7ba\x7d").add "GET"
          ("\x7bb\x7d" :: []) 2 "/\x7bb\x7d").find "GET" ("42" :: [])).pattern
        = ((NewTrieServeMux.add "GET" [] 2 "/\x7bb\x7d").find "GET" []).pattern :=
  ⟨⟨by decide, by decide, by decide, by decide, by decide⟩,
    wildcard_last_write "GET" "GET" "GET" [] [] [] 1 2 "/\x7ba\x7d" "/\x7bb\x7d"
      "\x7ba\x7d" "\x7bb\x7d" "42" (by decide) (by decide) (by decide) (by decide)
      (by decide)⟩

/-! ### The method-not-allowed responder -/

theorem leChars_total (as bs : List Char) : leChars as bs = true ∨ leChars bs as = true := by
  induction as generalizing bs with
  | nil => left; rfl
  | cons a as ih =>
    cases bs with
    | nil => right; rfl
    | cons b bs =>
      rcases Nat.lt_trichotomy a.toNat b.toNat with hlt | heq | hgt
      · left; simp [leChars, hlt]
      · rcases ih bs with h | h
        · left; simp [leChars, heq, h]
        · right; simp [leChars, heq, h]
      · right; simp [leChars, hgt]

theorem leChars_trans (as bs cs : List Char) (h1 : leChars as bs = true)
    (h2 : leChars bs cs = true) : leChars as cs = true := by
  induction as generalizing bs cs with
  | nil => rfl
  | cons a as ih =>
    cases bs with
    | nil => simp [leChars] at h1
    | cons b bs =>
      cases cs with
      | nil => simp [leChars] at h2
      | cons c cs =>
        simp only [leChars] at h1 h2 ⊢
        split_ifs at h1 h2 ⊢ <;>
          first
          | rfl
          | exact ih bs cs h1 h2
          | omega

instance : IsTrans String (fun a b => leStr a b = true) :=
  ⟨fun a b c => leChars_trans a.data b.data c.data⟩

instance : IsTotal String (fun a b => leStr a b = true) :=
  ⟨fun a b => leChars_total a.data b.data⟩

theorem mnaServe_allow (t : TrieServeMux α) (rm : String) (j s : Bool) :
    (mnaServe t rm j s).allow = String.intercalate ", " (mnaMethods t) := by
  unfold mnaServe
  split_ifs <;> rfl

theorem mnaServe_status (t : TrieServeMux α) (rm : String) (j s : Bool) :
    (mnaServe t rm j s).status = (if rm = "OPTIONS" then 200 else 405) := by
  unfold mnaServe
  split_ifs <;> rfl

/-- When the walk reaches node `n` and the request method has no entry
there, `find` returns the method-not-allowed responder bound to `n`,
with empty pattern and no path rewrite. -/
theorem find_of_descend (t : TrieServeMux α) (segs : List String) (n : TrieServeMux α)
    (m : String) (hd : t.descend segs = some n) (hm : alookup m n.methods = none) :
    (t.find m segs).handler = .methodNotAllowed n
    ∧ (t.find m segs).pattern = "" ∧ (t.find m segs).newPath = none := by
  induction segs generalizing t with
  | nil =>
    rw [TrieServeMux.descend, Option.some.injEq] at hd
    subst hd
    rw [TrieServeMux.find, hm]
    exact ⟨rfl, rfl, rfl⟩
  | cons p rest ih =>
    rw [TrieServeMux.descend] at hd
    rw [TrieServeMux.find]
    cases hc : alookup p t.paths with
    | some child =>
      simp only [hc] at hd ⊢
      exact ih child hd
    | none =>
      simp only [hc] at hd ⊢
      cases hp : t.param with
      | none => simp [hp] at hd
      | some w =>
        simp only [hp] at hd ⊢
        cases hw : alookup w t.paths with
        | none => simp [hw] at hd
        | some child =>
          simp only [hw] at hd ⊢
          exact ih child hd

/-- **C7.** A request path on which the walk ends at an interior node
with an empty method map resolves to the method-not-allowed responder
bound to that node — not the not-found outcome — whose `Allow` list is
exactly `OPTIONS`, responding 405 (200 for `OPTIONS`). -/
theorem interior_node_method_not_allowed (t : TrieServeMux α) (segs : List String)
    (n : TrieServeMux α) (m : String) (json sc : Bool)
    (hd : t.descend segs = some n) (hm : n.methods = []) :
    (t.find m segs).handler = .methodNotAllowed n
    ∧ (t.find m segs).handler ≠ .notFound
    ∧ (t.find m segs).pattern = ""
    ∧ mnaMethods n = ["OPTIONS"]
    ∧ (mnaServe n m json sc).allow = "OPTIONS"
    ∧ (mnaServe n m json sc).status = (if m = "OPTIONS" then 200 else 405) := by
  have hlk : alookup m n.methods = none := by rw [hm]; rfl
  obtain ⟨hh, hpat, _⟩ := find_of_descend t segs n m hd hlk
  have hmm : mnaMethods n = ["OPTIONS"] := by
    rw [mnaMethods, hm]
    rfl
  refine ⟨hh, ?_, hpat, hmm, ?_, mnaServe_status n m json sc⟩
  · rw [hh]
    simp
  · rw [mnaServe_allow, hmm]
    rfl

/-- Witness for C7: with `GET /a/b` registered, requesting `/a` hits
the interior node, yielding 405 with `Allow: OPTIONS`. -/
theorem interior_node_method_not_allowed_witness :
    ((NewTrieServeMux.add "GET" ["a", "b"] (1 : Nat) "/a/b").descend ["a"]
        = some (TrieServeMux.mk []
            none [("b", TrieServeMux.mk [("GET", 1)] none [] "/a/b")] "")
      ∧ (TrieServeMux.mk ([] : List (String × Nat))
            none [("b", TrieServeMux.mk [("GET", 1)] none [] "/a/b")] "").methods = [])
    ∧ (((NewTrieServeMux.add "GET" ["a", "b"] (1 : Nat) "/a/b").find "GET" ["a"]).handler
          = .methodNotAllowed (TrieServeMux.mk []
              none [("b", TrieServeMux.mk [("GET", 1)] none [] "/a/b")] "")
        ∧ ((NewTrieServeMux.add "GET" ["a", "b"] (1 : Nat) "/a/b").find "GET" ["a"]).handler
            ≠ .notFound
        ∧ ((NewTrieServeMux.add "GET" ["a", "b"] (1 : Nat) "/a/b").find "GET" ["a"]).pattern
            = ""
        ∧ mnaMethods (TrieServeMux.mk ([] : List (String × Nat))
            none [("b", TrieServeMux.mk [("GET", 1)] none [] "/a/b")] "") = ["OPTIONS"]
        ∧ (mnaServe (TrieServeMux.mk ([] : List (String × Nat))
            none [("b", TrieServeMux.mk [("GET", 1)] none [] "/a/b")] "")
            "GET" true false).allow = "OPTIONS"
        ∧ (mnaServe (TrieServeMux.mk ([] : List (String × Nat))
            none [("b", TrieServeMux.mk [("GET", 1)] none [] "/a/b")] "")
            "GET" true false).status = (if "GET" = "OPTIONS" then 200 else 405)) :=
  ⟨⟨rfl, rfl⟩,
    interior_node_method_not_allowed _ ["a"] _ "GET" true false rfl rfl⟩

/-- Counterexample to C4 as stated: at a node registering both `GET`
and `HEAD`, a `POST` request gets `Allow: GET, HEAD, HEAD, OPTIONS` —
sorted, but with `HEAD` duplicated, so the `Allow` header is not the
duplicate-free set the claim describes. -/
theorem allow_header_duplicate_counterexample :
    ((((NewTrieServeMux.add "GET" ["x"] (1 : Nat) "/x").add "HEAD" ["x"] 2 "/x").find
        "POST" ["x"]).handler
      = .methodNotAllowed (TrieServeMux.mk [("GET", 1), ("HEAD", 2)] none [] "/x"))
    ∧ (mnaServe (TrieServeMux.mk [("GET", (1 : Nat)), ("HEAD", 2)] none [] "/x")
        "POST" false false).status = 405
    ∧ (mnaServe (TrieServeMux.mk [("GET", (1 : Nat)), ("HEAD", 2)] none [] "/x")
        "POST" false false).allow = "GET, HEAD, HEAD, OPTIONS"
    ∧ ¬ (mnaMethods (TrieServeMux.mk [("GET", (1 : Nat)), ("HEAD", 2)] none [] "/x")).Nodup :=
  ⟨rfl, rfl, rfl, by decide⟩

/-- **C4** (amended).  A request resolving to a node with a non-empty
method map but no entry for the request method yields the responder
bound to that node; the response status is 405 and its `Allow` header
joins the lexicographically sorted list consisting of `OPTIONS`, plus
`HEAD` whenever `GET` is registered, plus every registered method name
— duplicates retained (e.g. `HEAD` twice when both `GET` and `HEAD`
are registered). -/
theorem method_not_allowed_allow_header (t : TrieServeMux α) (segs : List String)
    (n : TrieServeMux α) (m : String) (json sc : Bool)
    (hd : t.descend segs = some n) (_hne : n.methods ≠ [])
    (hm : alookup m n.methods = none) (hopt : m ≠ "OPTIONS") :
    (t.find m segs).handler = .methodNotAllowed n
    ∧ (mnaServe n m json sc).status = 405
    ∧ (mnaServe n m json sc).allow = String.intercalate ", " (mnaMethods n)
    ∧ List.Sorted (fun a b => leStr a b = true) (mnaMethods n)
    ∧ (mnaMethods n).Perm ("OPTIONS" ::
        (if (alookup "GET" n.methods).isSome then ["HEAD"] else []) ++ akeys n.methods) := by
  obtain ⟨hh, _, _⟩ := find_of_descend t segs n m hd hm
  refine ⟨hh, ?_, mnaServe_allow n m json sc, ?_, ?_⟩
  · rw [mnaServe_status]
    simp [hopt]
  · exact List.sorted_insertionSort _ _
  · exact List.perm_insertionSort _ _

/-- Witness for C4 (amended), at the `GET`+`HEAD` node with a `POST`
request. -/
theorem method_not_allowed_allow_header_witness :
    (((NewTrieServeMux.add "GET" ["x"] (1 : Nat) "/x").add "HEAD" ["x"] 2 "/x").descend
          ["x"] = some (TrieServeMux.mk [("GET", 1), ("HEAD", 2)] none [] "/x")
      ∧ (TrieServeMux.mk [("GET", (1 : Nat)), ("HEAD", 2)] none [] "/x").methods ≠ []
      ∧ alookup "POST" (TrieServeMux.mk [("GET", (1 : Nat)), ("HEAD", 2)] none [] "/x").methods
          = none
      ∧ "POST" ≠ "OPTIONS")
    ∧ (((((NewTrieServeMux.add "GET" ["x"] (1 : Nat) "/x").add "HEAD" ["x"] 2 "/x").find
            "POST" ["x"]).handler
          = .methodNotAllowed (TrieServeMux.mk [("GET", 1), ("HEAD", 2)] none [] "/x"))
        ∧ (mnaServe (TrieServeMux.mk [("GET", (1 : Nat)), ("HEAD", 2)] none [] "/x")
            "POST" true false).status = 405
        ∧ (mnaServe (TrieServeMux.mk [("GET", (1 : Nat)), ("HEAD", 2)] none [] "/x")
            "POST" true false).allow
            = String.intercalate ", "
                (mnaMethods (TrieServeMux.mk [("GET", (1 : Nat)), ("HEAD", 2)] none [] "/x"))
        ∧ List.Sorted (fun a b => leStr a b = true)
            (mnaMethods (TrieServeMux.mk [("GET", (1 : Nat)), ("HEAD", 2)] none [] "/x"))
        ∧ (mnaMethods (TrieServeMux.mk [("GET", (1 : Nat)), ("HEAD", 2)] none [] "/x")).Perm
            ("OPTIONS" ::
              (if (alookup "GET"
                  (TrieServeMux.mk [("GET", (1 : Nat)), ("HEAD", 2)] none [] "/x").methods).isSome
                then ["HEAD"] else [])
              ++ akeys (TrieServeMux.mk [("GET", (1 : Nat)), ("HEAD", 2)] none [] "/x").methods)) :=
  ⟨⟨rfl, by decide, rfl, by decide⟩,
    method_not_allowed_allow_header _ ["x"] _ "POST" true false rfl (by decide) rfl
      (by decide)⟩

/-! ### Query-string parsing -/

theorem splitChar_ne_nil (sep : Char) (l : List Char) : splitChar sep l ≠ [] := by
  cases l with
  | nil => simp [splitChar]
  | cons c rest =>
    rw [splitChar]
    split_ifs with h
    · simp
    · cases hs : splitChar sep rest <;> simp

theorem splitChar_append (sep : Char) (xs ys : List Char) :
    splitChar sep (xs ++ sep :: ys) = splitChar sep xs ++ splitChar sep ys := by
  induction xs with
  | nil => simp [splitChar]
  | cons c xs ih =>
    obtain ⟨g, gs, hgs⟩ := List.exists_cons_of_ne_nil (splitChar_ne_nil sep xs)
    by_cases h : c = sep <;>
      simp [splitChar, h, ih, hgs]

/-- `url.ParseQuery` distributes over the `"&"`-concatenation `Handler`
performs on the raw query. -/
theorem parseQuery_append (a b : String) :
    parseQuery (a ++ "&" ++ b) = parseQuery a ++ parseQuery b := by
  rw [parseQuery, parseQuery, parseQuery, String.data_append, String.data_append]
  rw [show ("&" : String).data = ['&'] from rfl, List.append_assoc]
  rw [show (['&'] ++ b.data : List Char) = '&' :: b.data from rfl]
  rw [splitChar_append, List.filterMap_append]

/-- **C10.** `Handler` merges wildcard-derived parameters into the
request's query string additively: the parameters of the original raw
query are preserved unchanged, and the encoded extracted parameters
are appended after them. -/
theorem handler_merges_query_additively (t : TrieServeMux α) (m urlPath rawQuery : String) :
    parseQuery ((t.Handler m urlPath rawQuery).rawQuery)
      = parseQuery rawQuery
        ++ parseQuery (encodeValues ((t.find m (splitSegments urlPath)).params.getD [])) :=
  parseQuery_append rawQuery (encodeValues ((t.find m (splitSegments urlPath)).params.getD []))

/-! ### Losslessness of path splitting -/

theorem joinChar_cons_head (sep c : Char) (s : List Char) (ss : List (List Char)) :
    joinChar sep ((c :: s) :: ss) = c :: joinChar sep (s :: ss) := by
  cases ss <;> simp [joinChar]

theorem joinChar_splitChar (sep : Char) (l : List Char) :
    joinChar sep (splitChar sep l) = l := by
  induction l with
  | nil => rfl
  | cons c rest ih =>
    obtain ⟨s, ss, hS⟩ := List.exists_cons_of_ne_nil (splitChar_ne_nil sep rest)
    rw [splitChar]
    split_ifs with h
    · rw [hS]
      rw [hS] at ih
      subst h
      cases ss <;> simpa [joinChar] using ih
    · rw [hS]
      rw [hS] at ih
      rw [joinChar_cons_head, ih]

theorem string_mk_injective : Function.Injective String.mk := by
  intro a b hab
  exact congrArg String.data hab

/-- For patterns beginning with `/`, the segment list determines the
pattern string. -/
theorem splitSegments_inj (p q : String) (hp : startsSlash p = true)
    (hq : startsSlash q = true) (h : splitSegments p = splitSegments q) : p = q := by
  rw [startsSlash] at hp hq
  cases hdp : p.data with
  | nil => rw [hdp] at hp; simp at hp
  | cons cp tp =>
    cases hdq : q.data with
    | nil => rw [hdq] at hq; simp at hq
    | cons cq tq =>
      rw [hdp] at hp
      rw [hdq] at hq
      simp only [List.head?, Option.some.injEq, decide_eq_true_eq] at hp hq
      subst hp
      subst hq
      rw [splitSegments, splitSegments, goSplit, goSplit, hdp, hdq] at h
      rw [show splitChar '/' ('/' :: tp) = [] :: splitChar '/' tp by simp [splitChar]] at h
      rw [show splitChar '/' ('/' :: tq) = [] :: splitChar '/' tq by simp [splitChar]] at h
      simp only [List.map_cons, List.drop_succ_cons, List.drop_zero] at h
      have htq : splitChar '/' tp = splitChar '/' tq :=
        List.map_injective_iff.mpr string_mk_injective h
      have : tp = tq := by
        rw [← joinChar_splitChar '/' tp, ← joinChar_splitChar '/' tq, htq]
      have hdata : p.data = q.data := by rw [hdp, hdq, this]
      cases p
      cases q
      exact congrArg String.mk hdata

/-! ### Registration lists -/

theorem buildTrie_concat (regs : List (String × String × α)) (r : String × String × α) :
    buildTrie (regs ++ [r])
      = (buildTrie regs).add r.1 (splitSegments r.2.1) r.2.2 r.2.1 := by
  rw [buildTrie, List.foldl_append]
  rfl

theorem lastRegFor_concat (regs : List (String × String × α)) (r : String × String × α)
    (m : String) (segs : List String) :
    lastRegFor (regs ++ [r]) m segs
      = if r.1 = m ∧ splitSegments r.2.1 = segs then some r
        else lastRegFor regs m segs := by
  rw [lastRegFor, List.filter_append]
  by_cases h : r.1 = m ∧ splitSegments r.2.1 = segs
  · rw [if_pos h]
    rw [show List.filter (fun x => decide (x.1 = m ∧ splitSegments x.2.1 = segs)) [r] = [r] by
      simp [List.filter, h]]
    rw [List.getLast?_concat]
  · rw [if_neg h]
    rw [show List.filter (fun x => decide (x.1 = m ∧ splitSegments x.2.1 = segs)) [r] = [] by
      simp [List.filter, h]]
    rw [List.append_nil]
    rfl

theorem getLast?_mem_of_eq_some {l : List γ} {x : γ} (h : l.getLast? = some x) : x ∈ l := by
  obtain ⟨hne, hx⟩ := List.mem_getLast?_eq_getLast (show x ∈ l.getLast? from h)
  rw [hx]
  exact List.getLast_mem hne

theorem lastRegFor_spec (regs : List (String × String × α)) (m : String)
    (segs : List String) (r : String × String × α)
    (h : lastRegFor regs m segs = some r) :
    r ∈ regs ∧ r.1 = m ∧ splitSegments r.2.1 = segs := by
  rw [lastRegFor] at h
  have hmem := getLast?_mem_of_eq_some h
  rw [List.mem_filter] at hmem
  exact ⟨hmem.1, of_decide_eq_true hmem.2⟩

theorem hasChain_buildTrie (regs : List (String × String × α)) (r : String × String × α)
    (h : r ∈ regs) : hasChain (buildTrie regs) (splitSegments r.2.1) := by
  induction regs using List.reverseRecOn with
  | nil => simp at h
  | append_singleton rs x ih =>
    rw [buildTrie_concat]
    rcases List.mem_append.mp h with hrs | hx
    · exact hasChain_add (buildTrie rs) _ _ _ _ _ (ih hrs)
    · rw [List.mem_singleton] at hx
      subst hx
      exact hasChain_add_self _ _ _ _ _

/-- **C1.** For registrations whose patterns begin with `/` and
contain no wildcard segments, looking up a registered method with the
registered pattern's own path returns exactly the registered handler
and pattern; when the same (method, pattern) pair was registered more
than once, the latest handler wins. -/
theorem literal_registration_lookup (regs : List (String × String × α))
    (m pat : String) (h : α)
    (hlast : lastRegFor regs m (splitSegments pat) = some (m, pat, h))
    (hslash : ∀ r ∈ regs, startsSlash r.2.1 = true)
    (_hlit : ∀ r ∈ regs, ∀ s ∈ splitSegments r.2.1, isWildcardSeg s = false) :
    (buildTrie regs).find m (splitSegments pat) = ⟨none, .handler h, pat, none⟩ := by
  induction regs using List.reverseRecOn with
  | nil => simp [lastRegFor] at hlast
  | append_singleton rs r ih =>
    rw [buildTrie_concat]
    rw [lastRegFor_concat] at hlast
    by_cases hk : r.1 = m ∧ splitSegments r.2.1 = splitSegments pat
    · rw [if_pos hk, Option.some.injEq] at hlast
      subst hlast
      exact find_add_same _ _ _ _ _
    · rw [if_neg hk] at hlast
      have hmem := lastRegFor_spec rs m (splitSegments pat) (m, pat, h) hlast
      have ihres := ih hlast
        (fun x hx => hslash x (List.mem_append.mpr (Or.inl hx)))
        (fun x hx => _hlit x (List.mem_append.mpr (Or.inl hx)))
      refine find_add_other (buildTrie rs) m (splitSegments pat) h pat r.1
        (splitSegments r.2.1) r.2.2 r.2.1 (hasChain_buildTrie rs (m, pat, h) hmem.1) ihres ?_
      intro hseg
      have hr1 : r.2.1 = pat :=
        splitSegments_inj r.2.1 pat
          (hslash r (List.mem_append.mpr (Or.inr (List.mem_singleton.mpr rfl))))
          (hslash (m, pat, h) (List.mem_append.mpr (Or.inl hmem.1))) hseg
      exact ⟨fun hm1 => hk ⟨hm1, hseg⟩, hr1⟩

/-- Witness for C1: three registrations, the `GET /users` pair
registered twice — lookup returns the later handler `12`. -/
theorem literal_registration_lookup_witness :
    (lastRegFor [("GET", "/users", (10 : Nat)), ("POST", "/users", 11),
        ("GET", "/users", 12)] "GET" (splitSegments "/users")
      = some ("GET", "/users", 12)
      ∧ (∀ r ∈ [("GET", "/users", (10 : Nat)), ("POST", "/users", 11),
          ("GET", "/users", 12)], startsSlash r.2.1 = true)
      ∧ (∀ r ∈ [("GET", "/users", (10 : Nat)), ("POST", "/users", 11),
          ("GET", "/users", 12)], ∀ s ∈ splitSegments r.2.1, isWildcardSeg s = false))
    ∧ (buildTrie [("GET", "/users", (10 : Nat)), ("POST", "/users", 11),
        ("GET", "/users", 12)]).find "GET" (splitSegments "/users")
      = ⟨none, .handler 12, "/users", none⟩ :=
  ⟨⟨by decide, by decide, by decide⟩,
    literal_registration_lookup _ "GET" "/users" 12 (by decide) (by decide) (by decide)⟩
